import Mathlib

/- Shallow embedding of the debugito debugger: src/main.rs, src/dwarf.rs and
src/registers.rs. Machine words are modelled as `Nat` with explicit `% 2 ^ 64`
where the Rust code computes on `u64`/`i64`; the child process is modelled as a
byte-addressed memory together with a register snapshot, and the ptrace word
primitives read and write eight little-endian bytes as the Rust wrappers do. -/

namespace Debugito

/-- A source breakpoint position: canonical file path plus 1-based line number
(struct `Breakpoint` in main.rs; identity is both fields). -/
structure Breakpoint where
  file : String
  line_number : Nat
deriving DecidableEq

/-- One row of an executed DWARF line-program sequence, as dwarf.rs consumes it:
the row address, the `end_sequence` flag, the canonical path produced by
`extract_path` (`none` when the file or directory is not resolvable) and the
optional line number (`row.line()`). -/
structure Row where
  address : Nat
  end_sequence : Bool
  path : Option String
  line : Option Nat
deriving DecidableEq

/-- Association-list model of `HashMap<Breakpoint, u64>`. -/
abbrev BpMap := List (Breakpoint × Nat)

def mapLookup (m : BpMap) (k : Breakpoint) : Option Nat :=
  (m.find? (fun p => decide (p.1 = k))).map (fun p => p.2)

def mapContains (m : BpMap) (k : Breakpoint) : Bool :=
  (m.find? (fun p => decide (p.1 = k))).isSome

/-- Model of `HashMap::insert`: replaces the stored value when the key is present. -/
def hashInsert : BpMap → Breakpoint → Nat → BpMap
  | [], k, v => [(k, v)]
  | p :: rest, k, v => if p.1 = k then (k, v) :: rest else p :: hashInsert rest k v

/-- Model of `HashMap::extend`: inserts every entry of `new` in order, overwriting
entries of `m` that share a key. -/
def hashExtend (m new : BpMap) : BpMap :=
  new.foldl (fun acc p => hashInsert acc p.1 p.2) m

/-- Loop body of `process_sequence` in dwarf.rs: skip `end_sequence` rows, rows
whose file cannot be resolved and rows without a line number; otherwise insert
`(path, line) ↦ address` only when the key is not yet present. -/
def psStep (breakpoints : BpMap) (row : Row) : BpMap :=
  if row.end_sequence then breakpoints
  else
    match row.path with
    | none => breakpoints
    | some p =>
      match row.line with
      | none => breakpoints
      | some l =>
        if mapContains breakpoints ⟨p, l⟩ then breakpoints
        else hashInsert breakpoints ⟨p, l⟩ row.address

/-- Function `process_sequence` of dwarf.rs: walk the rows of one line-program
sequence in order, accumulating first-wins entries into a fresh map. -/
def process_sequence (rows : List Row) : BpMap :=
  rows.foldl psStep []

/-- Function `DwarfInfo::get_breakpoints_from_dwarf` of dwarf.rs: the sequences of
every compilation unit's line program, in traversal order, are each processed by
`process_sequence` and merged into the accumulated map with `HashMap::extend`. -/
def get_breakpoints_from_dwarf (sequences : List (List Row)) : BpMap :=
  sequences.foldl (fun breakpoints s => hashExtend breakpoints (process_sequence s)) []

/-- A row is a usable match for breakpoint key `k`: not an end-of-sequence marker,
its file resolves to `k.file` and it carries line number `k.line_number`. -/
def rowMatches (k : Breakpoint) (r : Row) : Bool :=
  !r.end_sequence && decide (r.path = some k.file) && decide (r.line = some k.line_number)

/-- The address of the first row of one sequence that matches key `k`. -/
def firstAddr (rows : List Row) (k : Breakpoint) : Option Nat :=
  (rows.find? (rowMatches k)).map Row.address

/-- The first matching address taken from the last sequence that contains a match
for `k` (later sequences override earlier ones). -/
def lastAddr (sequences : List (List Row)) (k : Breakpoint) : Option Nat :=
  sequences.foldl
    (fun acc s =>
      match firstAddr s k with
      | some a => some a
      | none => acc)
    none

theorem mapLookup_hashInsert (m : BpMap) (k k' : Breakpoint) (v : Nat) :
    mapLookup (hashInsert m k v) k' = if k' = k then some v else mapLookup m k' := by
  induction m with
  | nil =>
    by_cases h : k' = k
    · subst h
      simp [hashInsert, mapLookup, List.find?]
    · have h2 : ¬ k = k' := fun hc => h hc.symm
      simp [hashInsert, mapLookup, List.find?, h, h2]
  | cons p rest ih =>
    by_cases hp : p.1 = k
    · by_cases h : k' = k
      · subst h
        simp [hashInsert, hp, mapLookup, List.find?]
      · have h2 : ¬ k = k' := fun hc => h hc.symm
        have hpk' : ¬ p.1 = k' := by
          intro hc
          exact h (by rw [← hc, hp])
        simp [hashInsert, hp, mapLookup, List.find?, h, h2, hpk']
    · by_cases hpk' : p.1 = k'
      · have h : ¬ k' = k := by
          intro hc
          exact hp (by rw [hpk', hc])
        simp [hashInsert, hp, mapLookup, List.find?, hpk', h]
      · by_cases h : k' = k
        · have := ih
          rw [if_pos h] at this
          simpa [hashInsert, hp, mapLookup, List.find?, hpk', h] using this
        · have := ih
          rw [if_neg h] at this
          simpa [hashInsert, hp, mapLookup, List.find?, hpk', h] using this

theorem mapContains_eq_isSome (m : BpMap) (k : Breakpoint) :
    mapContains m k = (mapLookup m k).isSome := by
  simp [mapContains, mapLookup]

theorem mapLookup_eq_none_of_forall (m : BpMap) (k : Breakpoint)
    (h : ∀ p ∈ m, p.1 ≠ k) : mapLookup m k = none := by
  induction m with
  | nil => rfl
  | cons p rest ih =>
    have hp : p.1 ≠ k := h p (List.mem_cons_self p rest)
    have := ih (fun q hq => h q (List.mem_cons_of_mem p hq))
    simpa [mapLookup, List.find?, hp] using this

/-- The keys of an association-list map are pairwise distinct. -/
def KeysNodup (m : BpMap) : Prop := m.Pairwise (fun p q => p.1 ≠ q.1)

theorem mem_hashInsert (m : BpMap) (k : Breakpoint) (v : Nat) (q : Breakpoint × Nat)
    (hq : q ∈ hashInsert m k v) : q ∈ m ∨ q = (k, v) := by
  induction m with
  | nil =>
    simp [hashInsert] at hq
    exact Or.inr hq
  | cons r rs ihr =>
    by_cases hr : r.1 = k
    · simp [hashInsert, hr] at hq
      rcases hq with hq | hq
      · exact Or.inr hq
      · exact Or.inl (List.mem_cons_of_mem r hq)
    · simp [hashInsert, hr] at hq
      rcases hq with hq | hq
      · exact Or.inl (by simp [hq])
      · rcases ihr hq with h | h
        · exact Or.inl (List.mem_cons_of_mem r h)
        · exact Or.inr h

theorem keysNodup_hashInsert (m : BpMap) (k : Breakpoint) (v : Nat)
    (hm : KeysNodup m) (habs : mapContains m k = false) :
    KeysNodup (hashInsert m k v) := by
  induction m with
  | nil => simp [hashInsert, KeysNodup]
  | cons p rest ih =>
    have hp : ¬ p.1 = k := by
      intro hc
      simp [mapContains, List.find?, hc] at habs
    have habs' : mapContains rest k = false := by
      simpa [mapContains, List.find?, hp] using habs
    have hm1 : KeysNodup rest := (List.pairwise_cons.mp hm).2
    have hm0 : ∀ q ∈ rest, p.1 ≠ q.1 := (List.pairwise_cons.mp hm).1
    have hrec := ih hm1 habs'
    have hmem : ∀ q ∈ hashInsert rest k v, p.1 ≠ q.1 := by
      intro q hq
      rcases mem_hashInsert rest k v q hq with h | h
      · exact hm0 q h
      · rw [h]
        exact hp
    have : KeysNodup (p :: hashInsert rest k v) := by
      rw [KeysNodup, List.pairwise_cons]
      exact ⟨fun q hq => hmem q hq, hrec⟩
    simpa [hashInsert, hp] using this

theorem mapLookup_psStep (init : BpMap) (r : Row) (k : Breakpoint) :
    mapLookup (psStep init r) k =
      if rowMatches k r = true ∧ mapLookup init k = none then some r.address
      else mapLookup init k := by
  by_cases he : r.end_sequence
  · have hm : rowMatches k r = false := by simp [rowMatches, he]
    simp [psStep, he, hm]
  · cases hp : r.path with
    | none =>
      have hm : rowMatches k r = false := by simp [rowMatches, hp]
      simp [psStep, he, hp, hm]
    | some p =>
      cases hl : r.line with
      | none =>
        have hm : rowMatches k r = false := by simp [rowMatches, hl]
        simp [psStep, he, hp, hl, hm]
      | some l =>
        by_cases hk : k = (⟨p, l⟩ : Breakpoint)
        · have hm : rowMatches k r = true := by
            simp [rowMatches, he, hp, hl, hk]
          by_cases hc : mapContains init ⟨p, l⟩
          · have hsome : (mapLookup init k).isSome := by
              rw [← mapContains_eq_isSome, hk]
              exact hc
            cases hlk : mapLookup init k with
            | none => rw [hlk] at hsome; simp at hsome
            | some v => simp [psStep, he, hp, hl, hc, hm, hlk]
          · have hnone : mapLookup init k = none := by
              have h1 := mapContains_eq_isSome init (⟨p, l⟩ : Breakpoint)
              rw [hk]
              cases h : mapLookup init (⟨p, l⟩ : Breakpoint) with
              | none => rfl
              | some v =>
                rw [h] at h1
                simp at h1
                exact absurd h1 hc
            have : mapLookup (hashInsert init ⟨p, l⟩ r.address) k = some r.address := by
              rw [mapLookup_hashInsert, if_pos hk]
            simp [psStep, he, hp, hl, hc, hm, hnone, this]
        · have hm : rowMatches k r = false := by
            rcases k with ⟨kf, kl⟩
            simp [rowMatches, he, hp, hl]
            intro h1 h2
            exact absurd (by simp [h1, h2] : Breakpoint.mk kf kl = ⟨p, l⟩) hk
          by_cases hc : mapContains init ⟨p, l⟩
          · simp [psStep, he, hp, hl, hc, hm]
          · have : mapLookup (hashInsert init ⟨p, l⟩ r.address) k = mapLookup init k := by
              rw [mapLookup_hashInsert, if_neg hk]
            simp [psStep, he, hp, hl, hc, hm, this]

theorem keysNodup_psStep (init : BpMap) (r : Row) (h : KeysNodup init) :
    KeysNodup (psStep init r) := by
  by_cases he : r.end_sequence
  · simpa [psStep, he] using h
  · cases hp : r.path with
    | none => simpa [psStep, he, hp] using h
    | some p =>
      cases hl : r.line with
      | none => simpa [psStep, he, hp, hl] using h
      | some l =>
        by_cases hc : mapContains init ⟨p, l⟩
        · simpa [psStep, he, hp, hl, hc] using h
        · have := keysNodup_hashInsert init ⟨p, l⟩ r.address h (by simpa using hc)
          simpa [psStep, he, hp, hl, hc] using this

theorem keysNodup_process_sequence (rows : List Row) : KeysNodup (process_sequence rows) := by
  have main : ∀ (rows : List Row) (init : BpMap), KeysNodup init →
      KeysNodup (rows.foldl psStep init) := by
    intro rows
    induction rows with
    | nil => intro init h; exact h
    | cons r rest ih =>
      intro init hinit
      simp only [List.foldl_cons]
      exact ih (psStep init r) (keysNodup_psStep init r hinit)
  exact main rows [] (by simp [KeysNodup])

theorem mapLookup_process_sequence (rows : List Row) (k : Breakpoint) :
    mapLookup (process_sequence rows) k = firstAddr rows k := by
  have main : ∀ (rows : List Row) (init : BpMap),
      mapLookup (rows.foldl psStep init) k =
        (match mapLookup init k with
          | some v => some v
          | none => firstAddr rows k) := by
    intro rows
    induction rows with
    | nil =>
      intro init
      cases h : mapLookup init k <;> simp [firstAddr, h]
    | cons r rest ih =>
      intro init
      simp only [List.foldl_cons]
      rw [ih (psStep init r), mapLookup_psStep]
      by_cases hm : rowMatches k r = true
      · cases hlk : mapLookup init k with
        | none => simp [hm, hlk, firstAddr, List.find?, hm]
        | some v => simp [hm, hlk]
      · have hm' : rowMatches k r = false := by simpa using hm
        cases hlk : mapLookup init k with
        | none => simp [hm', hlk, firstAddr, List.find?]
        | some v => simp [hm', hlk]
  have := main rows []
  simpa [process_sequence, mapLookup, List.find?] using this

theorem mapLookup_hashExtend (m new : BpMap) (k : Breakpoint) (hnd : KeysNodup new) :
    mapLookup (hashExtend m new) k =
      (match mapLookup new k with
        | some v => some v
        | none => mapLookup m k) := by
  induction new generalizing m with
  | nil => simp [hashExtend, mapLookup, List.find?]
  | cons p rest ih =>
    have hnd1 : KeysNodup rest := (List.pairwise_cons.mp hnd).2
    have hnd0 : ∀ q ∈ rest, p.1 ≠ q.1 := (List.pairwise_cons.mp hnd).1
    have step : hashExtend m (p :: rest) = hashExtend (hashInsert m p.1 p.2) rest := by
      simp [hashExtend]
    rw [step, ih (hashInsert m p.1 p.2) hnd1]
    by_cases hk : p.1 = k
    · have hrest : mapLookup rest k = none := by
        apply mapLookup_eq_none_of_forall
        intro q hq
        rw [← hk]
        exact (hnd0 q hq).symm
      rw [hrest]
      have hins : mapLookup (hashInsert m p.1 p.2) k = some p.2 := by
        rw [mapLookup_hashInsert, if_pos hk.symm]
      rw [hins]
      simp [mapLookup, List.find?, hk]
    · have hins : mapLookup (hashInsert m p.1 p.2) k = mapLookup m k := by
        rw [mapLookup_hashInsert, if_neg (fun hc => hk hc.symm)]
      rw [hins]
      simp [mapLookup, List.find?, hk]

theorem lastAddr_shift (sequences : List (List Row)) (k : Breakpoint) (acc : Option Nat) :
    sequences.foldl
        (fun acc s =>
          match firstAddr s k with
          | some a => some a
          | none => acc)
        acc =
      (match lastAddr sequences k with
        | some a => some a
        | none => acc) := by
  induction sequences generalizing acc with
  | nil => simp [lastAddr]
  | cons s rest ih =>
    simp only [List.foldl_cons]
    rw [ih]
    have hr : lastAddr (s :: rest) k =
        (match lastAddr rest k with
          | some a => some a
          | none =>
            (match firstAddr s k with
              | some a => some a
              | none => none)) := by
      simp only [lastAddr, List.foldl_cons]
      exact ih _
    rw [hr]
    cases hrest : lastAddr rest k with
    | some a => simp
    | none =>
      cases hs : firstAddr s k with
      | some a => simp
      | none => simp
/-- C1: the map built by `get_breakpoints_from_dwarf` sends each key to the first
matching address of the *last* sequence (in traversal order) that contains a
match for that key: within a single sequence the first address wins, but
`HashMap::extend` overwrites entries contributed by earlier sequences. -/
theorem C1_last_sequence_first_address (sequences : List (List Row)) (k : Breakpoint) :
    mapLookup (get_breakpoints_from_dwarf sequences) k = lastAddr sequences k := by
  have main : ∀ (sequences : List (List Row)) (m : BpMap),
      mapLookup
          (sequences.foldl (fun breakpoints s => hashExtend breakpoints (process_sequence s)) m)
          k =
        (match lastAddr sequences k with
          | some a => some a
          | none => mapLookup m k) := by
    intro sequences
    induction sequences with
    | nil => intro m; simp [lastAddr]
    | cons s rest ih =>
      intro m
      simp only [List.foldl_cons]
      rw [ih (hashExtend m (process_sequence s))]
      rw [mapLookup_hashExtend m (process_sequence s) k (keysNodup_process_sequence s)]
      rw [mapLookup_process_sequence]
      have hr : lastAddr (s :: rest) k =
          (match lastAddr rest k with
            | some a => some a
            | none =>
              (match firstAddr s k with
                | some a => some a
                | none => none)) := by
        simp only [lastAddr, List.foldl_cons]
        exact lastAddr_shift rest k _
      rw [hr]
      cases hrest : lastAddr rest k with
      | some a => simp
      | none =>
        cases hs : firstAddr s k with
        | some a => simp
        | none => simp
  simp only [get_breakpoints_from_dwarf]
  rw [main sequences []]
  cases h : lastAddr sequences k with
  | some a => simp
  | none => simp [mapLookup, List.find?]

def c1_rowA : Row := ⟨16, false, some ("main.c"), some 7⟩

def c1_rowB : Row := ⟨32, false, some ("main.c"), some 7⟩

/-- C1, counterexample: two sequences each containing a row for `main.c:7`.
The first address encountered across all sequences (also the minimum) is 16,
yet the final map stores 32: `HashMap::extend` lets the later sequence win. -/
theorem C1_counterexample :
    mapLookup (get_breakpoints_from_dwarf [[c1_rowA], [c1_rowB]]) ⟨"main.c", 7⟩ = some 32 ∧
      ¬ mapLookup (get_breakpoints_from_dwarf [[c1_rowA], [c1_rowB]]) ⟨"main.c", 7⟩ = some 16 := by
  constructor
  · rfl
  · intro h
    simp [c1_rowA, c1_rowB, get_breakpoints_from_dwarf, hashExtend, process_sequence, psStep,
      mapContains, hashInsert, mapLookup, List.find?] at h
/-- The source position returned by `get_line_from_address` (struct `LinePosition`
of dwarf.rs). -/
structure LinePosition where
  path : String
  line_number : Nat
deriving DecidableEq

/-- Function `DwarfInfo::get_line_from_address` of dwarf.rs, with the rows of every
sequence of every compilation unit listed in traversal order: skip `end_sequence`
rows and rows whose file is not resolvable; on a row that carries a line number,
return its position when the queried address is exactly the row address;
`none` models the final `bail!("Couldn't find the source code for the address")`. -/
def get_line_from_address : List Row → Nat → Option LinePosition
  | [], _ => none
  | row :: rest, address =>
    if row.end_sequence then get_line_from_address rest address
    else
      match row.path with
      | none => get_line_from_address rest address
      | some path =>
        match row.line with
        | some line =>
          if address = row.address then some ⟨path, line⟩
          else get_line_from_address rest address
        | none => get_line_from_address rest address

/-- The claim's row filter: not `end_sequence`, resolvable file, exact address
match (the claim does not require the row to carry a line number). -/
def claimLineMatches (address : Nat) (r : Row) : Bool :=
  !r.end_sequence && r.path.isSome && decide (address = r.address)

/-- The code's row filter: additionally the row must carry a line number. -/
def codeLineMatches (address : Nat) (r : Row) : Bool :=
  !r.end_sequence && r.path.isSome && r.line.isSome && decide (address = r.address)

/-- C5 (amended): `get_line_from_address` returns the position of the first
non-end-sequence row whose file resolves, which carries a line number, and whose
address is exactly the queried address; it reports not-found (`none`) when no such
row exists — in particular whenever no row's address is exactly equal. The
comparison is exact, with no nearest-address heuristic. -/
theorem C5_exact_match_first_row (rows : List Row) (address : Nat) :
    get_line_from_address rows address =
      (rows.find? (codeLineMatches address)).map
        (fun r => ⟨r.path.getD (""), r.line.getD 0⟩) := by
  induction rows with
  | nil => rfl
  | cons r rest ih =>
    by_cases he : r.end_sequence
    · have hm : codeLineMatches address r = false := by simp [codeLineMatches, he]
      simp [get_line_from_address, he, List.find?, hm, ih]
    · cases hp : r.path with
      | none =>
        have hm : codeLineMatches address r = false := by simp [codeLineMatches, hp]
        simp [get_line_from_address, he, hp, List.find?, hm, ih]
      | some p =>
        cases hl : r.line with
        | none =>
          have hm : codeLineMatches address r = false := by simp [codeLineMatches, hl]
          simp [get_line_from_address, he, hp, hl, List.find?, hm, ih]
        | some l =>
          by_cases ha : address = r.address
          · subst ha
            have hm : codeLineMatches r.address r = true := by
              simp [codeLineMatches, he, hp, hl]
            simp [get_line_from_address, he, hp, hl, List.find?, hm]
          · have hm : codeLineMatches address r = false := by
              simp [codeLineMatches, he, hp, hl, ha]
            simp [get_line_from_address, he, hp, hl, ha, List.find?, hm, ih]

def c5_rowA : Row := ⟨64, false, some ("a.c"), none⟩

def c5_rowB : Row := ⟨64, false, some ("b.c"), some 3⟩

/-- C5, counterexample: at address 64 the first non-end-sequence row with a
resolvable file is `c5_rowA` (file `a.c`, no line number), yet the function skips
it and answers from the later row `c5_rowB`, returning file `b.c`: the result is
not the position of the first address-matching resolvable row. -/
theorem C5_counterexample :
    [c5_rowA, c5_rowB].find? (claimLineMatches 64) = some c5_rowA ∧
      c5_rowA.path = some ("a.c") ∧
      get_line_from_address [c5_rowA, c5_rowB] 64 = some ⟨"b.c", 3⟩ := by
  refine ⟨rfl, rfl, rfl⟩
/-- The snapshot of the tracee's registers returned by `ptrace::getregs`
(the fields of `user_regs_struct` consumed by registers.rs and main.rs). -/
structure Regs where
  rax : Nat
  rdx : Nat
  rcx : Nat
  rbx : Nat
  rsi : Nat
  rdi : Nat
  rbp : Nat
  rsp : Nat
  r8 : Nat
  r9 : Nat
  r10 : Nat
  r11 : Nat
  r12 : Nat
  r13 : Nat
  r14 : Nat
  r15 : Nat
  rip : Nat

/-- Function `get_register_value` of registers.rs: map a DWARF register number to
the matching field of the register snapshot; numbers above 16 are reported with
`bail!("Invalid register number")`. -/
def get_register_value (regs : Regs) (register : Nat) : Except String Nat :=
  match register with
  | 0 => .ok regs.rax
  | 1 => .ok regs.rdx
  | 2 => .ok regs.rcx
  | 3 => .ok regs.rbx
  | 4 => .ok regs.rsi
  | 5 => .ok regs.rdi
  | 6 => .ok regs.rbp
  | 7 => .ok regs.rsp
  | 8 => .ok regs.r8
  | 9 => .ok regs.r9
  | 10 => .ok regs.r10
  | 11 => .ok regs.r11
  | 12 => .ok regs.r12
  | 13 => .ok regs.r13
  | 14 => .ok regs.r14
  | 15 => .ok regs.r15
  | 16 => .ok regs.rip
  | _ => .error ("Invalid register number")

/-- C10: `get_register_value` is total over DWARF register numbers — numbers 0
through 16 yield `Ok` with the matching x86-64 register of the snapshot
(0 → rax, 1 → rdx, 2 → rcx, 3 → rbx, 4 → rsi, 5 → rdi, 6 → rbp, 7 → rsp,
8–15 → r8–r15, 16 → rip) and every number greater than 16 yields the
"Invalid register number" error value instead of panicking. -/
theorem C10_register_map_total (regs : Regs) :
    get_register_value regs 0 = .ok regs.rax ∧
    get_register_value regs 1 = .ok regs.rdx ∧
    get_register_value regs 2 = .ok regs.rcx ∧
    get_register_value regs 3 = .ok regs.rbx ∧
    get_register_value regs 4 = .ok regs.rsi ∧
    get_register_value regs 5 = .ok regs.rdi ∧
    get_register_value regs 6 = .ok regs.rbp ∧
    get_register_value regs 7 = .ok regs.rsp ∧
    get_register_value regs 8 = .ok regs.r8 ∧
    get_register_value regs 9 = .ok regs.r9 ∧
    get_register_value regs 10 = .ok regs.r10 ∧
    get_register_value regs 11 = .ok regs.r11 ∧
    get_register_value regs 12 = .ok regs.r12 ∧
    get_register_value regs 13 = .ok regs.r13 ∧
    get_register_value regs 14 = .ok regs.r14 ∧
    get_register_value regs 15 = .ok regs.r15 ∧
    get_register_value regs 16 = .ok regs.rip ∧
    ∀ n : Nat, 16 < n → get_register_value regs n = .error ("Invalid register number") := by
  refine ⟨rfl, rfl, rfl, rfl, rfl, rfl, rfl, rfl, rfl, rfl, rfl, rfl, rfl, rfl, rfl, rfl, rfl, ?_⟩
  intro n hn
  obtain ⟨m, rfl⟩ : ∃ m, n = m + 17 := ⟨n - 17, by omega⟩
  rfl

/-- A zeroed register snapshot with the given instruction pointer, used to build
concrete witnesses. -/
def regsAt (r : Nat) : Regs :=
  ⟨0, 0, 0, 0, 0, 0, 0, 0, 0, 0, 0, 0, 0, 0, 0, 0, r⟩

/-- C10, witness at a concrete snapshot: register 3 reads rbx and register 17 is
rejected. -/
theorem C10_witness :
    get_register_value (regsAt 5) 3 = .ok (regsAt 5).rbx ∧
    get_register_value (regsAt 5) 17 = .error ("Invalid register number") := by
  have h := C10_register_map_total (regsAt 5)
  exact ⟨h.2.2.2.1, h.2.2.2.2.2.2.2.2.2.2.2.2.2.2.2.2.2 17 (by omega)⟩
/-- The number of values of a 64-bit machine word. -/
def U64 : Nat := 2 ^ 64

/-- Wrapping 64-bit addition (Rust release-mode `u64` semantics). -/
def u64_add (a b : Nat) : Nat := (a + b) % U64

/-- Wrapping 64-bit subtraction (Rust release-mode `u64` semantics). -/
def u64_sub (a b : Nat) : Nat := (a + (U64 - b % U64)) % U64

/-- Forward translation from `setup_breakpoint` in main.rs:
`virtual_address + proc_map.address_range.begin - proc_map.offset` on `u64`. -/
def runtime_address (virtual_address base off : Nat) : Nat :=
  u64_sub (u64_add virtual_address base) off

/-- Modelled from the spec: the inverse translation `file_relative = rip - base + off`.
It is used by `get_line_from_pid`, which main.rs calls on the loaded binary's DWARF
handle but whose body is not among the provided sources; the spec gives this
formula as the only inverse coordinate conversion in the system. -/
def file_relative_address (rip base off : Nat) : Nat :=
  u64_add (u64_sub rip base) off

/-- C6: translating a file-relative address to a runtime address and back is the
identity for every 64-bit `va`, mapping base and file offset. -/
theorem C6_address_roundtrip (va base off : Nat)
    (hva : va < U64) (hbase : base < U64) (hoff : off < U64) :
    file_relative_address (runtime_address va base off) base off = va := by
  have hU : U64 = 18446744073709551616 := by norm_num [U64]
  simp only [file_relative_address, runtime_address, u64_add, u64_sub, hU] at *
  omega

/-- C6, witness: the round trip at `va = 5`, `base = 1000`, `off = 8`. -/
theorem C6_witness :
    file_relative_address (runtime_address 5 1000 8) 1000 8 = 5 :=
  C6_address_roundtrip 5 1000 8 (by norm_num [U64]) (by norm_num [U64]) (by norm_num [U64])

/-- The 64-bit two's-complement pattern of `!0xFF` from `add_trap_instruction`. -/
def TRAP_MASK : Nat := 0xFFFFFFFFFFFFFF00

/-- Function `add_trap_instruction` of main.rs: `(word & !0xFF) | 0xCC` computed on
the 64-bit pattern of the `i64` word. -/
def add_trap_instruction (word : Nat) : Nat :=
  (word &&& TRAP_MASK) ||| 0xCC

theorem trap_mask_testBit (i : Nat) :
    TRAP_MASK.testBit i = (decide (8 ≤ i) && decide (i < 64)) := by
  have h : TRAP_MASK = (2 ^ 56 - 1) <<< 8 := by norm_num [TRAP_MASK, Nat.shiftLeft_eq]
  rw [h, Nat.testBit_shiftLeft, Nat.testBit_two_pow_sub_one]
  by_cases h8 : 8 ≤ i
  · have : (i - 8 < 56) = (i < 64) := by
      apply propext
      omega
    simp [h8, this]
  · simp [h8]

theorem add_trap_instruction_mod (w : Nat) : add_trap_instruction w % 256 = 0xCC := by
  apply Nat.eq_of_testBit_eq
  intro i
  rw [show (256 : Nat) = 2 ^ 8 from by norm_num, Nat.testBit_mod_two_pow]
  rw [add_trap_instruction, Nat.testBit_lor, Nat.testBit_land, trap_mask_testBit]
  by_cases h : i < 8
  · have h8 : ¬ 8 ≤ i := by omega
    simp [h, h8]
  · have hcc : (0xCC : Nat).testBit i = false := by
      apply Nat.testBit_eq_false_of_lt
      calc (0xCC : Nat) < 2 ^ 8 := by norm_num
        _ ≤ 2 ^ i := Nat.pow_le_pow_right (by norm_num) (by omega)
    have h8 : 8 ≤ i := by omega
    simp [h, h8, hcc]

theorem add_trap_instruction_div (w : Nat) (hw : w < 2 ^ 64) :
    add_trap_instruction w / 256 = w / 256 := by
  apply Nat.eq_of_testBit_eq
  intro i
  have hdiv : ∀ x : Nat, (x / 256).testBit i = x.testBit (8 + i) := by
    intro x
    rw [show (256 : Nat) = 2 ^ 8 from by norm_num, ← Nat.shiftRight_eq_div_pow,
      Nat.testBit_shiftRight]
  rw [hdiv, hdiv]
  rw [add_trap_instruction, Nat.testBit_lor, Nat.testBit_land, trap_mask_testBit]
  have hcc : (0xCC : Nat).testBit (8 + i) = false := by
    apply Nat.testBit_eq_false_of_lt
    calc (0xCC : Nat) < 2 ^ 8 := by norm_num
      _ ≤ 2 ^ (8 + i) := Nat.pow_le_pow_right (by norm_num) (by omega)
  by_cases h : 8 + i < 64
  · simp [h, hcc, show 8 ≤ 8 + i from by omega]
  · have hw' : w.testBit (8 + i) = false := by
      apply Nat.testBit_eq_false_of_lt
      calc w < 2 ^ 64 := hw
        _ ≤ 2 ^ (8 + i) := Nat.pow_le_pow_right (by norm_num) (by omega)
    simp [h, hcc, hw']

/-- Read one machine word — eight little-endian bytes — from the child's memory,
as the `ptrace::read` word read does. -/
def ptrace_read (mem : Nat → Nat) (a : Nat) : Nat :=
  mem a + 256 * mem (a + 1) + 256 ^ 2 * mem (a + 2) + 256 ^ 3 * mem (a + 3) +
    256 ^ 4 * mem (a + 4) + 256 ^ 5 * mem (a + 5) + 256 ^ 6 * mem (a + 6) +
    256 ^ 7 * mem (a + 7)

/-- Write one machine word — eight little-endian bytes — to the child's memory,
as the `ptrace::write` word write does. -/
def ptrace_write (mem : Nat → Nat) (a w : Nat) : Nat → Nat :=
  fun x => if a ≤ x ∧ x < a + 8 then w / 256 ^ (x - a) % 256 else mem x

theorem ptrace_write_at (mem : Nat → Nat) (a w : Nat) :
    ptrace_write mem a w a = w % 256 := by
  simp [ptrace_write]

theorem ptrace_write_outside (mem : Nat → Nat) (a w x : Nat)
    (hx : x < a ∨ a + 8 ≤ x) : ptrace_write mem a w x = mem x := by
  have : ¬ (a ≤ x ∧ x < a + 8) := by omega
  simp [ptrace_write, this]

/-- The traced child: its byte-addressed memory and a register snapshot. -/
structure Child where
  mem : Nat → Nat
  regs : Regs

/-- Function `setup_breakpoint` of main.rs: translate the DWARF virtual address to
the runtime address, read the full original word there, record it, and write the
word back with its low byte replaced by the trap instruction. -/
def setup_breakpoint (c : Child) (virtual_address base off : Nat) : (Nat × Nat) × Child :=
  let real_address := runtime_address virtual_address base off
  let original_word := ptrace_read c.mem real_address
  let word := add_trap_instruction original_word
  ((real_address, original_word), { c with mem := ptrace_write c.mem real_address word })

/-- C7: the trap-installing transformation yields `(w & !0xFF) | 0xCC` — low byte
`0xCC`, upper 56 bits unchanged — and `setup_breakpoint` records, keyed by the
runtime address, the full original word read there (not just the replaced low
byte), after which the byte in the child at that address is `0xCC`. -/
theorem C7_trap_transformation (w : Nat) (hw : w < 2 ^ 64) (c : Child) (va base off : Nat) :
    add_trap_instruction w % 256 = 0xCC ∧
    add_trap_instruction w / 256 = w / 256 ∧
    (setup_breakpoint c va base off).1 =
      (runtime_address va base off, ptrace_read c.mem (runtime_address va base off)) ∧
    (setup_breakpoint c va base off).2.mem (runtime_address va base off) = 0xCC := by
  refine ⟨add_trap_instruction_mod w, add_trap_instruction_div w hw, rfl, ?_⟩
  show ptrace_write c.mem (runtime_address va base off)
      (add_trap_instruction (ptrace_read c.mem (runtime_address va base off)))
      (runtime_address va base off) = 0xCC
  rw [ptrace_write_at]
  exact add_trap_instruction_mod _

/-- A concrete child used by witnesses: every byte is `0x90` except address 100,
which holds an armed trap. -/
def nopChild : Child :=
  ⟨fun a => if a = 100 then 0xCC else 0x90, regsAt 100⟩

/-- C7, witness at a concrete word and child. -/
theorem C7_witness :
    add_trap_instruction 0x1234 % 256 = 0xCC ∧
    add_trap_instruction 0x1234 / 256 = 0x1234 / 256 ∧
    (setup_breakpoint nopChild 5 1000 8).1 =
      (runtime_address 5 1000 8, ptrace_read nopChild.mem (runtime_address 5 1000 8)) ∧
    (setup_breakpoint nopChild 5 1000 8).2.mem (runtime_address 5 1000 8) = 0xCC :=
  C7_trap_transformation 0x1234 (by norm_num) nopChild 5 1000 8
/-- The four supported primitive encodings (enum `BaseType` of dwarf.rs). -/
inductive BaseType
  | Boolean
  | Float
  | Signed
  | Unsigned
deriving DecidableEq

/-- DWARF encoding constant `DW_ATE_boolean`. -/
def DW_ATE_boolean : Nat := 2

/-- DWARF encoding constant `DW_ATE_float`. -/
def DW_ATE_float : Nat := 4

/-- DWARF encoding constant `DW_ATE_signed`. -/
def DW_ATE_signed : Nat := 5

/-- DWARF encoding constant `DW_ATE_unsigned`. -/
def DW_ATE_unsigned : Nat := 7

/-- Function `parse_base_type` of dwarf.rs: the four supported `DW_ATE` encodings
map to the enum; everything else is `bail!("Unsupported base type")`. -/
def parse_base_type (value : Nat) : Except String BaseType :=
  if value = DW_ATE_boolean then .ok .Boolean
  else if value = DW_ATE_float then .ok .Float
  else if value = DW_ATE_signed then .ok .Signed
  else if value = DW_ATE_unsigned then .ok .Unsigned
  else .error ("Unsupported base type")

/-- The DIE referenced by a variable's `DW_AT_type` attribute, with the attributes
`get_type_info` of dwarf.rs reads from it: whether its tag is `DW_TAG_base_type`,
and its optional `DW_AT_encoding`, `DW_AT_byte_size` and `DW_AT_bit_size` values. -/
structure TypeDie where
  tag_is_base_type : Bool
  encoding : Option Nat
  byte_size : Option Nat
  bit_size : Option Nat
deriving DecidableEq

/-- Function `get_type_info` of dwarf.rs: when the variable has no `DW_AT_type`
(or the referenced entry is missing) the result is `Ok(None)`; a referenced DIE
whose tag is not `DW_TAG_base_type` is `bail!("Only primitive types are
supported")`; otherwise the encoding is parsed by `parse_base_type` (absent
encoding gives `Ok(None)`) and the size in bits is `DW_AT_bit_size` when present,
else `DW_AT_byte_size * 8`, with `Ok(None)` when neither size attribute exists. -/
def get_type_info (type_ref : Option TypeDie) : Except String (Option (BaseType × Nat)) :=
  match type_ref with
  | none => .ok none
  | some t =>
    if t.tag_is_base_type = false then .error ("Only primitive types are supported")
    else
      match t.encoding with
      | none => .ok none
      | some enc =>
        match parse_base_type enc with
        | .error e => .error e
        | .ok base_type =>
          match t.bit_size.or (t.byte_size.map (fun v => v * 8)) with
          | some size => .ok (some (base_type, size))
          | none => .ok none

/-- C9: type resolution follows `DW_AT_type` to a DIE that must have tag
`base_type` (otherwise an error); the encodings boolean, float, signed and
unsigned map to the four enum variants and every other encoding is rejected as
unsupported; the size is `DW_AT_bit_size` when present and otherwise
`DW_AT_byte_size * 8`. -/
theorem C9_type_resolution (t : TypeDie) (e b v : Nat) (bt : BaseType) :
    (t.tag_is_base_type = false →
      get_type_info (some t) = .error ("Only primitive types are supported")) ∧
    parse_base_type DW_ATE_boolean = .ok .Boolean ∧
    parse_base_type DW_ATE_float = .ok .Float ∧
    parse_base_type DW_ATE_signed = .ok .Signed ∧
    parse_base_type DW_ATE_unsigned = .ok .Unsigned ∧
    (e ≠ DW_ATE_boolean → e ≠ DW_ATE_float → e ≠ DW_ATE_signed → e ≠ DW_ATE_unsigned →
      parse_base_type e = .error ("Unsupported base type")) ∧
    (t.tag_is_base_type = true → t.encoding = some e → parse_base_type e = .ok bt →
      t.bit_size = some b → get_type_info (some t) = .ok (some (bt, b))) ∧
    (t.tag_is_base_type = true → t.encoding = some e → parse_base_type e = .ok bt →
      t.bit_size = none → t.byte_size = some v →
      get_type_info (some t) = .ok (some (bt, v * 8))) := by
  refine ⟨?_, rfl, rfl, ?_, ?_, ?_, ?_, ?_⟩
  · intro h
    simp [get_type_info, h]
  · simp [parse_base_type, DW_ATE_boolean, DW_ATE_float, DW_ATE_signed]
  · simp [parse_base_type, DW_ATE_boolean, DW_ATE_float, DW_ATE_signed, DW_ATE_unsigned]
  · intro h1 h2 h3 h4
    simp [parse_base_type, h1, h2, h3, h4]
  · intro htag henc hparse hbit
    simp [get_type_info, htag, henc, hparse, hbit]
  · intro htag henc hparse hbit hbyte
    simp [get_type_info, htag, henc, hparse, hbit, hbyte]

/-- C9, witness: a signed 4-byte base type resolves to `(Signed, 32)`, a non-base
tag and encoding 8 are rejected, and a present bit size wins. -/
theorem C9_witness :
    get_type_info (some ⟨false, some 5, some 4, none⟩) =
      .error ("Only primitive types are supported") ∧
    parse_base_type 8 = .error ("Unsupported base type") ∧
    get_type_info (some ⟨true, some 5, none, some 16⟩) = .ok (some (.Signed, 16)) ∧
    get_type_info (some ⟨true, some 5, some 4, none⟩) = .ok (some (.Signed, 4 * 8)) := by
  have h1 := C9_type_resolution ⟨false, some 5, some 4, none⟩ 8 16 4 .Signed
  have h2 := C9_type_resolution ⟨true, some 5, none, some 16⟩ 5 16 4 .Signed
  have h3 := C9_type_resolution ⟨true, some 5, some 4, none⟩ 5 16 4 .Signed
  refine ⟨h1.1 rfl, h1.2.2.2.2.2.1 (by decide) (by decide) (by decide) (by decide), ?_, ?_⟩
  · exact h2.2.2.2.2.2.2.1 rfl rfl rfl rfl
  · exact h3.2.2.2.2.2.2.2 rfl rfl rfl rfl rfl
/-- The location produced by evaluating a variable's `DW_AT_location` expression
(the first piece of `evaluator.result()`): an address, or anything else. -/
inductive EvalLoc
  | address (a : Nat)
  | otherPiece
deriving DecidableEq

/-- The form of a variable DIE's `DW_AT_location` attribute: a location-lists
reference, a DWARF expression (abstracted by the location its evaluation
produces), some other attribute form, or no attribute at all. -/
inductive LocAttr
  | locList
  | exprloc (result : EvalLoc)
  | otherAttr
  | absent
deriving DecidableEq

/-- The location obtained by evaluating the enclosing subprogram's
`DW_AT_frame_base` expression (`get_frame_base_location` of dwarf.rs): a single
register location, or anything else. `otherLoc` stands for every non-register
outcome, which the code answers with `unimplemented!`. -/
inductive FrameBaseLoc
  | register (r : Nat)
  | otherLoc
deriving DecidableEq

/-- A variable DIE encountered by the depth-first walk of `get_variable_info`,
together with the evaluated frame base of its enclosing subprogram (maintained by
the code through its `parents_stack`): the resolved `DW_AT_name`, the referenced
type DIE, the `DW_AT_location` form and the frame-base location. -/
structure VarDie where
  name : Option String
  type_ref : Option TypeDie
  location : LocAttr
  frame_base : FrameBaseLoc
deriving DecidableEq

/-- Outcome of `get_variable_info`: a result returned to the caller, an
`anyhow` error returned to the caller, or a process abort
(`unreachable!` / `unimplemented!`). -/
inductive VarOutcome
  | found (address : Nat) (base_type : BaseType) (size : Nat)
  | err (msg : String)
  | fatal (msg : String)
deriving DecidableEq

/-- Function `DwarfInfo::get_variable_info` of dwarf.rs over the variable DIEs in
traversal order: skip DIEs whose name differs; propagate `get_type_info` errors
and report a missing type; on a location-lists location abort
(`unreachable!("Support location lists for variables")`); on an expression,
resolve the frame base — a non-register frame base aborts
(`unimplemented!("Frame base not stored in a register")`), a register is read
through `get_register_value`, whose error propagates — then return the address
when the evaluated location is an address, silently continuing the search
otherwise; a non-expression location attribute aborts; an absent location
attribute also continues the search; an exhausted search is
`bail!("Couldn't find the variable")`. -/
def get_variable_info (dies : List VarDie) (regs : Regs) (name : String) : VarOutcome :=
  match dies with
  | [] => .err ("Couldn't find the variable")
  | d :: rest =>
    if d.name = some name then
      match get_type_info d.type_ref with
      | .error e => .err e
      | .ok none => .err ("Couldn't find the type of the variable")
      | .ok (some (base_type, size)) =>
        match d.location with
        | .locList => .fatal ("Support location lists for variables")
        | .exprloc result =>
          match d.frame_base with
          | .register r =>
            match get_register_value regs r with
            | .error e => .err e
            | .ok _ =>
              match result with
              | .address a => .found a base_type size
              | .otherPiece => get_variable_info rest regs name
          | .otherLoc => .fatal ("Frame base not stored in a register")
        | .otherAttr => .fatal ("Unrecognized variable location info")
        | .absent => get_variable_info rest regs name
    else get_variable_info rest regs name

/-- A well-formed signed 4-byte base type, used by the C4 scenarios. -/
def c4_type_ok : TypeDie := ⟨true, some 5, some 4, none⟩

def c4_loclist_die : VarDie := ⟨some ("x"), some c4_type_ok, .locList, .register 6⟩

def c4_fb_die : VarDie := ⟨some ("x"), some c4_type_ok, .exprloc (.address 7), .otherLoc⟩

def c4_nonaddr_die : VarDie := ⟨some ("x"), some c4_type_ok, .exprloc .otherPiece, .register 6⟩

/-- C4, counterexample: a variable whose `DW_AT_location` is a location list and
one whose frame base is not a register both abort the process
(`unreachable!` / `unimplemented!`) instead of producing an error result, and an
evaluated location that is not an address is skipped silently, surfacing only as
the generic "Couldn't find the variable" error — not as a distinct error. -/
theorem C4_counterexample :
    get_variable_info [c4_loclist_die] (regsAt 0) "x" =
      .fatal ("Support location lists for variables") ∧
    get_variable_info [c4_fb_die] (regsAt 0) "x" =
      .fatal ("Frame base not stored in a register") ∧
    get_variable_info [c4_nonaddr_die] (regsAt 0) "x" =
      .err ("Couldn't find the variable") := by
  refine ⟨rfl, rfl, rfl⟩

/-- C4 (amended): a variable that is never found, a type that is not a base type,
and an encoding outside the four primitives are reported to the caller as
distinct error results; but a location-list location, a non-expression location
attribute and a non-register frame base abort the process with a panic, and an
evaluated location that is not an address is skipped silently, with the search
continuing through the remaining DIEs. -/
theorem C4_failure_paths (regs : Regs) (n : String) (d : VarDie) (rest : List VarDie)
    (ts : BaseType × Nat) (res : EvalLoc) (r val : Nat) :
    (∀ dies : List VarDie, (∀ e ∈ dies, e.name ≠ some n) →
      get_variable_info dies regs n = .err ("Couldn't find the variable")) ∧
    (∀ msg, d.name = some n → get_type_info d.type_ref = .error msg →
      get_variable_info (d :: rest) regs n = .err msg) ∧
    (d.name = some n → get_type_info d.type_ref = .ok (some ts) →
      d.location = .locList →
      get_variable_info (d :: rest) regs n = .fatal ("Support location lists for variables")) ∧
    (d.name = some n → get_type_info d.type_ref = .ok (some ts) →
      d.location = .exprloc res → d.frame_base = .otherLoc →
      get_variable_info (d :: rest) regs n = .fatal ("Frame base not stored in a register")) ∧
    (d.name = some n → get_type_info d.type_ref = .ok (some ts) →
      d.location = .exprloc .otherPiece → d.frame_base = .register r →
      get_register_value regs r = .ok val →
      get_variable_info (d :: rest) regs n = get_variable_info rest regs n) := by
  refine ⟨?_, ?_, ?_, ?_, ?_⟩
  · intro dies hna
    induction dies with
    | nil => rfl
    | cons e es ih =>
      have hne : ¬ e.name = some n := hna e (List.mem_cons_self e es)
      have := ih (fun q hq => hna q (List.mem_cons_of_mem e hq))
      simpa [get_variable_info, hne] using this
  · intro msg hname htype
    simp [get_variable_info, hname, htype]
  · intro hname htype hloc
    rcases ts with ⟨bt, sz⟩
    simp [get_variable_info, hname, htype, hloc]
  · intro hname htype hloc hfb
    rcases ts with ⟨bt, sz⟩
    simp [get_variable_info, hname, htype, hloc, hfb]
  · intro hname htype hloc hfb hreg
    rcases ts with ⟨bt, sz⟩
    simp [get_variable_info, hname, htype, hloc, hfb, hreg]

/-- C4, witness: the amended failure paths at concrete inputs — an empty DIE list
reports not-found, a non-base type reports the distinct type error, and the
location-list DIE reaches the abort branch. -/
theorem C4_witness :
    get_variable_info [] (regsAt 0) "x" = .err ("Couldn't find the variable") ∧
    get_variable_info [VarDie.mk (some ("x")) (some ⟨false, some 5, some 4, none⟩)
        (.exprloc (.address 7)) (.register 6)] (regsAt 0) "x" =
      .err ("Only primitive types are supported") ∧
    get_variable_info [c4_loclist_die] (regsAt 0) "x" =
      .fatal ("Support location lists for variables") := by
  have h1 := C4_failure_paths (regsAt 0) "x" c4_loclist_die [] (.Signed, 32)
    (.address 7) 6 0
  have h2 := C4_failure_paths (regsAt 0) "x"
    (VarDie.mk (some ("x")) (some ⟨false, some 5, some 4, none⟩)
      (.exprloc (.address 7)) (.register 6)) [] (.Signed, 32) (.address 7) 6 0
  refine ⟨h1.1 [] (by intro e he; simp at he), ?_, ?_⟩
  · exact h2.2.1 ("Only primitive types are supported") rfl rfl
  · exact h1.2.2.1 rfl rfl rfl
/-- Association-list model of `HashMap<u64, i64>` (`setBreakpoints`). -/
def lookupNat (m : List (Nat × Nat)) (k : Nat) : Option Nat :=
  (m.find? (fun p => decide (p.1 = k))).map (fun p => p.2)

def containsNat (m : List (Nat × Nat)) (k : Nat) : Bool :=
  (m.find? (fun p => decide (p.1 = k))).isSome

/-- Function `run_original_breakpoint_instruction` of main.rs: rewind `rip` past
the trap byte (the comment in the source: the rip was already increased by the
trap instruction), write the recorded original word back at the rewound address,
single-step the child (`do_step`, modelled by the instruction oracle `step`) and
re-install the word with the trap low byte at the same address. The source's
`HashMap` index panics when the rewound address is not a key; the model reads 0
there, and the theorems only visit states where the key is present. -/
def run_original_breakpoint_instruction (step : Child → Child)
    (set_breakpoints : List (Nat × Nat)) (c : Child) : Child :=
  let rip' := c.regs.rip - 1
  let c1 : Child := { c with regs := { c.regs with rip := rip' } }
  let original_word := (lookupNat set_breakpoints rip').getD 0
  let c2 : Child := { c1 with mem := ptrace_write c1.mem rip' original_word }
  let c3 := step c2
  { c3 with mem := ptrace_write c3.mem rip' (add_trap_instruction original_word) }

/-- A `cont` followed by `wait` that stops with SIGTRAP: the child executes
instructions (through the oracle `step`) until the byte at its instruction
pointer is the trap `0xCC`; executing the trap advances the instruction pointer
one past the trap byte and delivers SIGTRAP. `none` models a child that never
traps within `fuel` instructions (for instance because it exits, which main.rs
answers with `panic!("Child exited")`). -/
def contWait (step : Child → Child) : Nat → Child → Option Child
  | 0, _ => none
  | fuel + 1, c =>
    if c.mem c.regs.rip = 0xCC then
      some { c with regs := { c.regs with rip := c.regs.rip + 1 } }
    else contWait step fuel (step c)

/-- Struct `LoadedBinary` of main.rs: the DWARF handle is abstracted by the
line-program sequences and the variable DIEs it yields, next to the computed
`possible_breakpoints` map. -/
structure LoadedBinary where
  sequences : List (List Row)
  var_dies : List VarDie
  possible_breakpoints : BpMap

/-- Struct `RunningProgram` of main.rs: the executable mapping's base address and
file offset (from `/proc/<pid>/maps`), the installed breakpoints with their
original words, the traced child (standing for the pid) and whether the last
wait status was `Stopped(SIGTRAP)`. -/
structure RunningProgram where
  base : Nat
  off : Nat
  set_breakpoints : List (Nat × Nat)
  child : Child
  trap_pending : Bool

/-- Struct `ProgramContext` of main.rs. -/
structure ProgramContext where
  binary : Option LoadedBinary
  running_program : Option RunningProgram
  breakpoints : List Breakpoint

/-- Outcome of one REPL command handler: `Ok(msg)`, an `anyhow` error shown to the
user, or a process abort (`panic!` / `unwrap` failure). -/
inductive CmdResult
  | ok (msg : String)
  | err (msg : String)
  | fatal (msg : String)
deriving DecidableEq

/-- Modelled from the spec: `get_line_from_pid`, which main.rs calls on the
loaded binary's DWARF handle after each stop but whose body is not among the
provided sources. Per the spec it reads the child's instruction pointer, applies
the inverse translation `file_relative = rip - base + off` and resolves the
result by exact lookup over the line-program rows. -/
def get_line_from_pid (sequences : List (List Row)) (c : Child) (base off : Nat) :
    Option LinePosition :=
  get_line_from_address sequences.flatten (file_relative_address c.regs.rip base off)

/-- Function `load_program` of main.rs: with a binary already loaded, ask for
confirmation and keep the original on refusal; otherwise read and parse the new
binary (failures there leave the context unchanged; the success path is
modelled), compute its breakpoint map and replace the loaded binary. The
registered breakpoint list is not touched. -/
def load_program (confirm : Bool) (sequences : List (List Row)) (var_dies : List VarDie)
    (ctx : ProgramContext) : ProgramContext × CmdResult :=
  if ctx.binary.isSome && !confirm then (ctx, .ok ("Kept original binary"))
  else
    ({ ctx with binary := some ⟨sequences, var_dies, get_breakpoints_from_dwarf sequences⟩ },
      .ok ("Binary loaded"))

/-- Function `add_breakpoint` of main.rs: with no binary loaded the handler
returns the "load a binary first" error; a position that is not a key of
`possible_breakpoints` is answered with a message and no state change; otherwise
the (parsed, canonicalized) breakpoint is pushed onto the list. -/
def add_breakpoint (breakpoint : Breakpoint) (ctx : ProgramContext) :
    ProgramContext × CmdResult :=
  match ctx.binary with
  | none => (ctx, .err ("Please load a binary first"))
  | some loaded_binary =>
    if mapContains loaded_binary.possible_breakpoints breakpoint = false then
      (ctx, .ok ("Not a valid breakpoint position"))
    else
      ({ ctx with breakpoints := ctx.breakpoints ++ [breakpoint] },
        .ok ("Breakpoint added to " ++ breakpoint.file))

/-- Function `run_program` of main.rs: guards (binary loaded; confirmation when a
program is already running; at least one breakpoint), then fork and first stop
(the oracle `child0` is the child stopped at its entry point), installation of
every registered breakpoint through `setup_breakpoint`, `cont` plus `wait`
(`contWait`; a child exit is a `panic!`), source-location resolution (whose
failure propagates before `running_program` is assigned) and finally the new
`RunningProgram` record. -/
def run_program (confirm : Bool) (step : Child → Child) (fuel : Nat) (child0 : Child)
    (base off : Nat) (ctx : ProgramContext) : ProgramContext × CmdResult :=
  match ctx.binary with
  | none => (ctx, .err ("You need to load a binary first"))
  | some binary =>
    if ctx.running_program.isSome && !confirm then
      (ctx, .ok ("The original program is still running"))
    else if ctx.breakpoints.isEmpty then
      (ctx, .err ("Please set at least one breakpoint first"))
    else
      let install := ctx.breakpoints.foldl
        (fun (acc : List (Nat × Nat) × Child) breakpoint =>
          let virtual_address := (mapLookup binary.possible_breakpoints breakpoint).getD 0
          let r := setup_breakpoint acc.2 virtual_address base off
          (acc.1 ++ [r.1], r.2))
        ([], child0)
      match contWait step fuel install.2 with
      | none => (ctx, .fatal ("Child exited"))
      | some child1 =>
        match get_line_from_pid binary.sequences child1 base off with
        | none => (ctx, .err ("Couldn't find the source code for the address"))
        | some _ =>
          ({ ctx with running_program := some ⟨base, off, install.1, child1, true⟩ },
            .ok ("Reached breakpoint"))

/-- Function `continue_program` of main.rs: with no running program the handler
returns the "run a program first" error; the `unwrap` of the binary aborts when
no binary is present; with a pending SIGTRAP the restore dance runs first; then
`cont` plus `wait` (a child exit is a `panic!`), the stored wait status is
updated, and only then is the source location resolved, so its failure leaves
the updated record in place. -/
def continue_program (step : Child → Child) (fuel : Nat) (ctx : ProgramContext) :
    ProgramContext × CmdResult :=
  match ctx.running_program with
  | none => (ctx, .err ("You need to run a program first"))
  | some rp =>
    match ctx.binary with
    | none => (ctx, .fatal ("no binary for a running program"))
    | some binary =>
      let c1 := if rp.trap_pending then
          run_original_breakpoint_instruction step rp.set_breakpoints rp.child
        else rp.child
      match contWait step fuel c1 with
      | none => (ctx, .fatal ("Child exited"))
      | some child1 =>
        let rp' : RunningProgram := { rp with child := child1, trap_pending := true }
        let ctx' : ProgramContext := { ctx with running_program := some rp' }
        match get_line_from_pid binary.sequences child1 rp.base rp.off with
        | none => (ctx', .err ("Couldn't find the source code for the address"))
        | some _ => (ctx', .ok ("Reached breakpoint"))

/-- Function `print_var` of main.rs: with no running program the handler returns
the "run a program first" error; the `unwrap` of the binary aborts when no
binary is present; variable resolution errors propagate; on success one word is
read at the variable's address and printed as an unsigned 32-bit integer (the
message carries the printed value; the handler's own `Ok` payload is empty). -/
def print_var (name : String) (ctx : ProgramContext) : ProgramContext × CmdResult :=
  match ctx.running_program with
  | none => (ctx, .err ("You need to run a program first"))
  | some rp =>
    match ctx.binary with
    | none => (ctx, .fatal ("no binary for a running program"))
    | some binary =>
      match get_variable_info binary.var_dies rp.child.regs name with
      | .err e => (ctx, .err e)
      | .fatal e => (ctx, .fatal e)
      | .found a _ _ => (ctx, .ok (toString (ptrace_read rp.child.mem a % 2 ^ 32)))
/-- C8: every command invoked while its guard fails — breakpoint or run with no
binary loaded, run with no breakpoints set, continue or print with no running
program, or breakpoint naming a position outside `possibleBreakpoints` — returns
a message and leaves the session state exactly unchanged. -/
theorem C8_guards_leave_state_unchanged (ctx : ProgramContext) :
    (∀ bp, ctx.binary = none →
      add_breakpoint bp ctx = (ctx, .err ("Please load a binary first"))) ∧
    (∀ bp lb, ctx.binary = some lb →
      mapContains lb.possible_breakpoints bp = false →
      add_breakpoint bp ctx = (ctx, .ok ("Not a valid breakpoint position"))) ∧
    (∀ confirm step fuel child0 base off, ctx.binary = none →
      run_program confirm step fuel child0 base off ctx =
        (ctx, .err ("You need to load a binary first"))) ∧
    (∀ confirm step fuel child0 base off lb, ctx.binary = some lb →
      ctx.running_program = none → ctx.breakpoints = [] →
      run_program confirm step fuel child0 base off ctx =
        (ctx, .err ("Please set at least one breakpoint first"))) ∧
    (∀ step fuel, ctx.running_program = none →
      continue_program step fuel ctx = (ctx, .err ("You need to run a program first"))) ∧
    (∀ name, ctx.running_program = none →
      print_var name ctx = (ctx, .err ("You need to run a program first"))) := by
  refine ⟨?_, ?_, ?_, ?_, ?_, ?_⟩
  · intro bp hb
    simp [add_breakpoint, hb]
  · intro bp lb hb habs
    simp [add_breakpoint, hb, habs]
  · intro confirm step fuel child0 base off hb
    simp [run_program, hb]
  · intro confirm step fuel child0 base off lb hb hr hbp
    simp [run_program, hb, hr, hbp]
  · intro step fuel hr
    simp [continue_program, hr]
  · intro name hr
    simp [print_var, hr]

/-- The empty session, as `ProgramContext::default()` builds it. -/
def ctx0 : ProgramContext := ⟨none, none, []⟩

/-- A session holding one loaded binary whose only possible breakpoint is
`main.c:7`, with no breakpoints registered and nothing running. -/
def c8_loaded_ctx : ProgramContext :=
  ⟨some ⟨[[c1_rowA]], [], get_breakpoints_from_dwarf [[c1_rowA]]⟩, none, []⟩

/-- C8, witness: each guard at a concrete session — the empty session rejects
breakpoint, run, continue and print; the loaded session rejects an invalid
breakpoint position and a run without breakpoints. -/
theorem C8_witness :
    add_breakpoint ⟨"main.c", 7⟩ ctx0 = (ctx0, .err ("Please load a binary first")) ∧
    add_breakpoint ⟨"other.c", 1⟩ c8_loaded_ctx =
      (c8_loaded_ctx, .ok ("Not a valid breakpoint position")) ∧
    run_program true id 1 nopChild 0 0 ctx0 =
      (ctx0, .err ("You need to load a binary first")) ∧
    run_program true id 1 nopChild 0 0 c8_loaded_ctx =
      (c8_loaded_ctx, .err ("Please set at least one breakpoint first")) ∧
    continue_program id 1 ctx0 = (ctx0, .err ("You need to run a program first")) ∧
    print_var "x" ctx0 = (ctx0, .err ("You need to run a program first")) := by
  have h0 := C8_guards_leave_state_unchanged ctx0
  have h1 := C8_guards_leave_state_unchanged c8_loaded_ctx
  refine ⟨h0.1 ⟨"main.c", 7⟩ rfl, ?_, h0.2.2.1 true id 1 nopChild 0 0 rfl, ?_,
    h0.2.2.2.2.1 id 1 rfl, h0.2.2.2.2.2 "x" rfl⟩
  · exact h1.2.1 ⟨"other.c", 1⟩ _ rfl (by decide)
  · exact h1.2.2.2.1 true id 1 nopChild 0 0 _ rfl rfl rfl
/-- The session invariant of the spec, decided: every registered breakpoint is a
key of the loaded binary's `possible_breakpoints` (vacuous with no binary). -/
def session_invariant (ctx : ProgramContext) : Bool :=
  match ctx.binary with
  | none => true
  | some lb => ctx.breakpoints.all (fun bp => mapContains lb.possible_breakpoints bp)

theorem session_invariant_congr (ctx ctx' : ProgramContext)
    (h1 : ctx'.binary = ctx.binary) (h2 : ctx'.breakpoints = ctx.breakpoints) :
    session_invariant ctx' = session_invariant ctx := by
  unfold session_invariant
  rw [h1, h2]

theorem run_program_preserves_fields (confirm : Bool) (step : Child → Child) (fuel : Nat)
    (child0 : Child) (base off : Nat) (ctx : ProgramContext) :
    (run_program confirm step fuel child0 base off ctx).1.binary = ctx.binary ∧
    (run_program confirm step fuel child0 base off ctx).1.breakpoints = ctx.breakpoints := by
  unfold run_program
  split
  · simp
  · split
    · simp
    · split
      · simp
      · dsimp only
        split
        · simp
        · split
          · simp
          · simp

theorem continue_program_preserves_fields (step : Child → Child) (fuel : Nat)
    (ctx : ProgramContext) :
    (continue_program step fuel ctx).1.binary = ctx.binary ∧
    (continue_program step fuel ctx).1.breakpoints = ctx.breakpoints := by
  unfold continue_program
  split
  · simp
  · split
    · simp
    · dsimp only
      split
      · simp
      · split
        · simp
        · simp

theorem print_var_preserves_state (name : String) (ctx : ProgramContext) :
    (print_var name ctx).1 = ctx := by
  unfold print_var
  split
  · simp
  · split
    · simp
    · split
      · simp
      · simp
      · simp

def c3_ctx : ProgramContext :=
  ⟨some ⟨[[c1_rowA]], [], get_breakpoints_from_dwarf [[c1_rowA]]⟩, none, [⟨"main.c", 7⟩]⟩

/-- C3, counterexample: in a session whose loaded binary admits `main.c:7` and
whose breakpoint list holds exactly that breakpoint, a confirmed reload of a
binary with no possible breakpoints keeps the breakpoint list, so the reloaded
session violates the invariant. -/
theorem C3_counterexample :
    session_invariant c3_ctx = true ∧
    session_invariant (load_program true [] [] c3_ctx).1 = false := by
  refine ⟨by decide, by decide⟩

/-- C3 (amended): breakpoint, run, continue and print preserve the invariant that
every registered breakpoint is a key of the loaded binary's
`possible_breakpoints`; load preserves it when the reload is declined, and a
confirmed (re)load preserves it only under the extra condition that every
already-registered breakpoint is a possible breakpoint of the newly loaded
binary — a confirmed reload of a binary lacking one of them violates it. -/
theorem C3_invariant_preservation (ctx : ProgramContext)
    (h : session_invariant ctx = true) :
    (∀ bp, session_invariant (add_breakpoint bp ctx).1 = true) ∧
    (∀ confirm step fuel child0 base off,
      session_invariant (run_program confirm step fuel child0 base off ctx).1 = true) ∧
    (∀ step fuel, session_invariant (continue_program step fuel ctx).1 = true) ∧
    (∀ name, session_invariant (print_var name ctx).1 = true) ∧
    (∀ confirm sequences var_dies,
      ctx.breakpoints.all
          (fun bp => mapContains (get_breakpoints_from_dwarf sequences) bp) = true →
      session_invariant (load_program confirm sequences var_dies ctx).1 = true) := by
  refine ⟨?_, ?_, ?_, ?_, ?_⟩
  · intro bp
    cases hb : ctx.binary with
    | none => simp [add_breakpoint, hb, session_invariant]
    | some lb =>
      by_cases habs : mapContains lb.possible_breakpoints bp = false
      · simpa [add_breakpoint, hb, habs] using h
      · have hmem : mapContains lb.possible_breakpoints bp = true := by
          cases hx : mapContains lb.possible_breakpoints bp
          · exact absurd hx habs
          · rfl
        have hall : ctx.breakpoints.all
            (fun bp => mapContains lb.possible_breakpoints bp) = true := by
          simpa [session_invariant, hb] using h
        simp [add_breakpoint, hb, habs, session_invariant, List.all_append, hall, hmem]
  · intro confirm step fuel child0 base off
    have hf := run_program_preserves_fields confirm step fuel child0 base off ctx
    rw [session_invariant_congr ctx _ hf.1 hf.2]
    exact h
  · intro step fuel
    have hf := continue_program_preserves_fields step fuel ctx
    rw [session_invariant_congr ctx _ hf.1 hf.2]
    exact h
  · intro name
    rw [print_var_preserves_state name ctx]
    exact h
  · intro confirm sequences var_dies hall
    by_cases hdecline : (ctx.binary.isSome && !confirm) = true
    · simpa [load_program, hdecline] using h
    · simp only [load_program, hdecline, if_false, Bool.not_eq_true]
      simpa [session_invariant] using hall

/-- C3, witness: from the session of the counterexample, adding the valid
breakpoint again, running, continuing, printing and reloading a binary that
still admits `main.c:7` all preserve the invariant. -/
theorem C3_witness :
    session_invariant (add_breakpoint ⟨"main.c", 7⟩ c3_ctx).1 = true ∧
    session_invariant (run_program true id 1 nopChild 0 0 c3_ctx).1 = true ∧
    session_invariant (continue_program id 1 c3_ctx).1 = true ∧
    session_invariant (print_var "x" c3_ctx).1 = true ∧
    session_invariant (load_program true [[c1_rowA]] [] c3_ctx).1 = true := by
  have hmain := C3_invariant_preservation c3_ctx (by decide)
  exact ⟨hmain.1 ⟨"main.c", 7⟩, hmain.2.1 true id 1 nopChild 0 0, hmain.2.2.1 id 1,
    hmain.2.2.2.1 "x", hmain.2.2.2.2 true [[c1_rowA]] [] (by decide)⟩
theorem contWait_mem_trap (step : Child → Child) (fuel : Nat) (c c' : Child)
    (h : contWait step fuel c = some c') :
    c'.mem (c'.regs.rip - 1) = 0xCC := by
  induction fuel generalizing c with
  | zero => simp [contWait] at h
  | succ n ih =>
    by_cases ht : c.mem c.regs.rip = 0xCC
    · simp only [contWait, ht, if_pos] at h
      have h' : ({ c with regs := { c.regs with rip := c.regs.rip + 1 } } : Child) = c' := by
        simpa using h
      rw [← h']
      simpa using ht
    · simp only [contWait, ht, if_neg, if_false] at h
      exact ih (step c) h

theorem contWait_stop_is_key (step : Child → Child) (fuel : Nat) (c c' : Child)
    (sb : List (Nat × Nat))
    (harm : ∀ k a, ((step^[k]) c).mem a = 0xCC → containsNat sb a = true)
    (h : contWait step fuel c = some c') :
    containsNat sb (c'.regs.rip - 1) = true := by
  induction fuel generalizing c with
  | zero => simp [contWait] at h
  | succ n ih =>
    by_cases ht : c.mem c.regs.rip = 0xCC
    · simp only [contWait, ht, if_pos] at h
      have h' : ({ c with regs := { c.regs with rip := c.regs.rip + 1 } } : Child) = c' := by
        simpa using h
      rw [← h']
      have h0 := harm 0 c.regs.rip (by simpa using ht)
      simpa using h0
    · simp only [contWait, ht, if_neg, if_false] at h
      apply ih (step c) _ h
      intro k a hk
      apply harm (k + 1) a
      rwa [Function.iterate_succ_apply]

theorem run_original_rearm (step : Child → Child) (sb : List (Nat × Nat)) (c : Child) :
    (run_original_breakpoint_instruction step sb c).mem (c.regs.rip - 1) = 0xCC := by
  unfold run_original_breakpoint_instruction
  dsimp only
  rw [ptrace_write_at]
  exact add_trap_instruction_mod _

/-- C2 (amended): when a continue command's `cont`/`wait` stops with SIGTRAP, the
child's instruction pointer is one *past* a key of `setBreakpoints` (the CPU has
already consumed the INT3 byte): the byte at `rip - 1` is `0xCC`, and `rip - 1`
is a key of `setBreakpoints` provided every trap byte observable during the run
belongs to an installed breakpoint; moreover, when the continue resumed from a
pending SIGTRAP, the restore dance left the resumed breakpoint's address holding
`0xCC` again before the child was released. -/
theorem C2_stop_one_past_trap (step : Child → Child) (fuel : Nat) (ctx : ProgramContext)
    (rp : RunningProgram) (binary : LoadedBinary) (child1 : Child)
    (hrp : ctx.running_program = some rp) (hb : ctx.binary = some binary)
    (hstop : contWait step fuel
        (if rp.trap_pending then
          run_original_breakpoint_instruction step rp.set_breakpoints rp.child
        else rp.child) = some child1)
    (harm : ∀ k a,
      ((step^[k]) (if rp.trap_pending then
          run_original_breakpoint_instruction step rp.set_breakpoints rp.child
        else rp.child)).mem a = 0xCC → containsNat rp.set_breakpoints a = true) :
    (continue_program step fuel ctx).1.running_program =
      some { rp with child := child1, trap_pending := true } ∧
    child1.mem (child1.regs.rip - 1) = 0xCC ∧
    containsNat rp.set_breakpoints (child1.regs.rip - 1) = true ∧
    (rp.trap_pending = true →
      (run_original_breakpoint_instruction step rp.set_breakpoints rp.child).mem
        (rp.child.regs.rip - 1) = 0xCC) := by
  refine ⟨?_, contWait_mem_trap step fuel _ child1 hstop,
    contWait_stop_is_key step fuel _ child1 rp.set_breakpoints harm hstop, ?_⟩
  · unfold continue_program
    rw [hrp, hb]
    dsimp only
    rw [hstop]
    dsimp only
    cases hline : get_line_from_pid binary.sequences child1 rp.base rp.off <;> rfl
  · intro _
    exact run_original_rearm step rp.set_breakpoints rp.child

/-- The memory of the C2 counterexample's child: armed traps at 100 and 110,
`0x90` everywhere else. -/
def c2_mem : Nat → Nat := fun a => if a = 100 then 0xCC else if a = 110 then 0xCC else 0x90

/-- The child of the C2 counterexample, stopped at the trap installed at 100
(its instruction pointer already one past the trap byte). -/
def c2_child : Child := ⟨c2_mem, regsAt 101⟩

/-- An instruction oracle whose every instruction just advances `rip` by one. -/
def stepRip : Child → Child := fun c => { c with regs := { c.regs with rip := c.regs.rip + 1 } }

def c2_rp : RunningProgram := ⟨0, 0, [(100, 0x90), (110, 0x90)], c2_child, true⟩

def c2_ctx : ProgramContext := ⟨some ⟨[], [], []⟩, some c2_rp, []⟩

/-- The instruction pointer of the session's running child (0 with none). -/
def rpRip (ctx : ProgramContext) : Nat :=
  match ctx.running_program with
  | some rp => rp.child.regs.rip
  | none => 0

/-- C2, counterexample: continuing from the trap at 100 runs the child to the
trap installed at 110, and the recorded stop has instruction pointer 111 — one
past the breakpoint address — which is not a key of `setBreakpoints` (110, the
key, is `rip - 1`). -/
theorem C2_counterexample :
    rpRip (continue_program stepRip 20 c2_ctx).1 = 111 ∧
    containsNat [(100, 0x90), (110, 0x90)] 111 = false ∧
    containsNat [(100, 0x90), (110, 0x90)] (111 - 1) = true := by
  refine ⟨by decide, by decide, by decide⟩

def c2w_bin : LoadedBinary := ⟨[], [], []⟩

def c2w_rp : RunningProgram := ⟨0, 0, [(100, 0x90)], nopChild, false⟩

def c2w_ctx : ProgramContext := ⟨some c2w_bin, some c2w_rp, []⟩

/-- The stop state of the C2 witness: the child of `c2w_rp` one past its trap. -/
def c2w_stop : Child := ⟨nopChild.mem, { regsAt 100 with rip := (regsAt 100).rip + 1 }⟩

/-- C2, witness: a concrete continue (no pending trap) stopping at the armed
trap at address 100. -/
theorem C2_witness :
    (continue_program id 1 c2w_ctx).1.running_program =
      some { c2w_rp with child := c2w_stop, trap_pending := true } ∧
    c2w_stop.mem (c2w_stop.regs.rip - 1) = 0xCC ∧
    containsNat c2w_rp.set_breakpoints (c2w_stop.regs.rip - 1) = true ∧
    (c2w_rp.trap_pending = true →
      (run_original_breakpoint_instruction id c2w_rp.set_breakpoints c2w_rp.child).mem
        (c2w_rp.child.regs.rip - 1) = 0xCC) := by
  apply C2_stop_one_past_trap id 1 c2w_ctx c2w_rp c2w_bin c2w_stop rfl rfl
  · rfl
  · intro k a hk
    have hm : nopChild.mem a = 0xCC := by
      simpa [c2w_rp, Function.iterate_id] using hk
    by_cases ha : a = 100
    · subst ha
      decide
    · simp [nopChild, ha] at hm
